import Mathlib

/-!
Verification of the `SessionManager` concurrent-session controller from
`src/backend/src/services/humeConfig.ts`.

The controller is a process-wide in-memory registry of active interview
sessions backed by a JavaScript `Map<string, ActiveSession>`.  We embed the
registry as an insertion-ordered association list of `ActiveSession` records
keyed by `sessionId`, which is exactly the observable behaviour of a JS
`Map`: `get` returns the entry for the key, `set` overwrites an existing
entry in place or appends a new one, `delete` removes the entry, iteration
follows insertion order.  Since a JS `Map` can never hold two entries with
the same key, well-formed registry states have pairwise-distinct keys
(`WF` below); operations are stated over such states where key uniqueness
matters.  Timestamps (`Date.now()`) are passed explicitly as `Nat`
millisecond values.
-/

set_option autoImplicit false

namespace HumeSession

/-- The `ActiveSession` interface of `humeConfig.ts`: caller-supplied id,
admission timestamp, last heartbeat timestamp, declared question count. -/
structure ActiveSession where
  sessionId : String
  startedAt : Nat
  lastHeartbeat : Nat
  totalQuestions : Nat
deriving DecidableEq, Repr

/-- State of the `SessionManager` class: the `sessions` map plus the two
configuration values fixed at construction time. -/
structure SessionManager where
  sessions : List ActiveSession
  maxConcurrent : Nat
  staleTimeoutMs : Nat
deriving DecidableEq, Repr

/-- `this.sessions.get(sessionId)`: the entry with the given key, if any
(first match; keys are unique in a well-formed registry). -/
def mapGet (id : String) : List ActiveSession → Option ActiveSession
  | [] => none
  | s :: rest => if s.sessionId = id then some s else mapGet id rest

/-- `this.sessions.set(sessionId, e)`: overwrite the entry with that key in
place if present, otherwise append at the end (JS `Map.set` semantics). -/
def mapSet (e : ActiveSession) : List ActiveSession → List ActiveSession
  | [] => [e]
  | s :: rest => if s.sessionId = e.sessionId then e :: rest else s :: mapSet e rest

/-- `this.sessions.delete(sessionId)`: remove the entry with that key. -/
def mapDelete (id : String) : List ActiveSession → List ActiveSession
  | [] => []
  | s :: rest => if s.sessionId = id then rest else s :: mapDelete id rest

/-- `session.lastHeartbeat = Date.now()` performed on the entry found under
the key: update the keyed entry's `lastHeartbeat`, leaving the rest alone. -/
def setHeartbeat (now : Nat) (id : String) : List ActiveSession → List ActiveSession
  | [] => []
  | s :: rest =>
    if s.sessionId = id then { s with lastHeartbeat := now } :: rest
    else s :: setHeartbeat now id rest

/-- The keys of the registry, in insertion order. -/
def keysOf (l : List ActiveSession) : List String :=
  l.map (fun s => s.sessionId)

/-- Well-formedness of a registry state: a JS `Map` never holds two entries
with the same key. -/
def WF (st : SessionManager) : Prop :=
  (keysOf st.sessions).Nodup

/-- `cleanupStale`: delete every entry with `now - lastHeartbeat > staleTimeoutMs`
(iterating over the map and deleting the stale entries is a filter). -/
def cleanupStale (now : Nat) (st : SessionManager) : SessionManager :=
  { st with
    sessions := st.sessions.filter (fun s => ! decide (now - s.lastHeartbeat > st.staleTimeoutMs)) }

/-- The message `getCapacity` returns when the limit is reached. -/
def capacityMessage (limit : Nat) : String :=
  "Maximum concurrent interviews (" ++ toString limit ++ ") reached. Please try again later."

/-- The record returned by `getCapacity`. -/
structure CapacityInfo where
  allowed : Bool
  activeCount : Nat
  limit : Nat
  message : Option String
deriving DecidableEq, Repr

/-- `getCapacity()`: run the sweep, then report the count, the limit,
whether `activeCount < maxConcurrent`, and a message when not allowed. -/
def getCapacity (now : Nat) (st : SessionManager) : SessionManager × CapacityInfo :=
  let st1 := cleanupStale now st
  let activeCount := st1.sessions.length
  let allowed : Bool := decide (activeCount < st1.maxConcurrent)
  (st1,
    { allowed := allowed
      activeCount := activeCount
      limit := st1.maxConcurrent
      message := if allowed then none else some (capacityMessage st1.maxConcurrent) })

/-- `startSession(sessionId, totalQuestions)`: run the sweep; reject when
`sessions.size >= maxConcurrent`; otherwise `set` a fresh entry with
`startedAt = lastHeartbeat = now` and accept. -/
def startSession (now : Nat) (sessionId : String) (totalQuestions : Nat)
    (st : SessionManager) : SessionManager × Bool :=
  let st1 := cleanupStale now st
  if st1.sessions.length ≥ st1.maxConcurrent then (st1, false)
  else
    ({ st1 with
        sessions := mapSet
          { sessionId := sessionId, startedAt := now, lastHeartbeat := now,
            totalQuestions := totalQuestions } st1.sessions }, true)

/-- `heartbeat(sessionId)`: if the entry is present, bump its
`lastHeartbeat` to `now` and return `true`; otherwise return `false`. -/
def heartbeat (now : Nat) (sessionId : String) (st : SessionManager) :
    SessionManager × Bool :=
  match mapGet sessionId st.sessions with
  | some _ => ({ st with sessions := setHeartbeat now sessionId st.sessions }, true)
  | none => (st, false)

/-- `endSession(sessionId)`: delete and return the entry if present,
otherwise return `null`. -/
def endSession (sessionId : String) (st : SessionManager) :
    SessionManager × Option ActiveSession :=
  match mapGet sessionId st.sessions with
  | some s => ({ st with sessions := mapDelete sessionId st.sessions }, some s)
  | none => (st, none)

/-- `getSession(sessionId)`: pure lookup (`this.sessions.get(...) || null`). -/
def getSession (sessionId : String) (st : SessionManager) : Option ActiveSession :=
  mapGet sessionId st.sessions

/-- `getActiveSessions()`: the current entries. -/
def getActiveSessions (st : SessionManager) : List ActiveSession :=
  st.sessions

/-- The entry `startSession` inserts: `startedAt = lastHeartbeat = now`. -/
def freshSession (now : Nat) (id : String) (q : Nat) : ActiveSession :=
  { sessionId := id, startedAt := now, lastHeartbeat := now, totalQuestions := q }

/-- A two-entry registry used by the concrete witness theorems. -/
def demoState : SessionManager :=
  { sessions := [⟨"a", 0, 0, 3⟩, ⟨"b", 1, 2, 4⟩], maxConcurrent := 5, staleTimeoutMs := 300000 }

/-- A one-entry registry at capacity, used by the concrete witness theorems. -/
def demoFullState : SessionManager :=
  { sessions := [⟨"a", 0, 0, 3⟩], maxConcurrent := 1, staleTimeoutMs := 300000 }

/-- One externally triggerable operation of the manager (state effect only;
`sweep` is the timer-driven `cleanupStale`, which is also the state effect
of `getCapacity`). -/
inductive Op where
  | start (now : Nat) (id : String) (q : Nat)
  | beat (now : Nat) (id : String)
  | stop (id : String)
  | sweep (now : Nat)
deriving DecidableEq, Repr

/-- The state effect of one operation. -/
def applyOp (st : SessionManager) : Op → SessionManager
  | Op.start now id q => (startSession now id q st).1
  | Op.beat now id => (heartbeat now id st).1
  | Op.stop id => (endSession id st).1
  | Op.sweep now => cleanupStale now st

/-- Run a sequence of operations. -/
def run (st : SessionManager) (ops : List Op) : SessionManager :=
  ops.foldl applyOp st

/-- The manager as constructed: empty registry, configured limits. -/
def initial (maxConcurrent staleTimeoutMs : Nat) : SessionManager :=
  { sessions := [], maxConcurrent := maxConcurrent, staleTimeoutMs := staleTimeoutMs }

/-- Does the operation admit (or overwrite) this id via `startSession`? -/
def startsId (op : Op) (id : String) : Bool :=
  match op with
  | Op.start _ i _ => i == id
  | _ => false

/-- Is the operation a heartbeat on this id? -/
def beatsId (op : Op) (id : String) : Bool :=
  match op with
  | Op.beat _ i => i == id
  | _ => false

/-- The timestamp (`Date.now()`) the operation observes, if it reads one. -/
def opNow : Op → Option Nat
  | Op.start now _ _ => some now
  | Op.beat now _ => some now
  | Op.stop _ => none
  | Op.sweep now => some now

/-- `startMany`: a sequence of `startSession` calls at one instant,
collecting the returned booleans. -/
def startMany (now : Nat) (ids : List String) (q : Nat) (st : SessionManager) :
    SessionManager × List Bool :=
  match ids with
  | [] => (st, [])
  | id :: rest =>
    let p := startSession now id q st
    let pr := startMany now rest q p.1
    (pr.1, p.2 :: pr.2)

@[simp] theorem keysOf_nil : keysOf [] = [] := rfl

@[simp] theorem keysOf_cons (a : ActiveSession) (l : List ActiveSession) :
    keysOf (a :: l) = a.sessionId :: keysOf l := rfl

theorem mem_of_mapGet_eq_some {id : String} {l : List ActiveSession} {s : ActiveSession}
    (h : mapGet id l = some s) : s ∈ l ∧ s.sessionId = id := by
  induction l with
  | nil => simp [mapGet] at h
  | cons a rest ih =>
    rw [mapGet] at h
    by_cases ha : a.sessionId = id
    · rw [if_pos ha] at h
      injection h with h2
      subst h2
      exact ⟨List.mem_cons_self a rest, ha⟩
    · rw [if_neg ha] at h
      rcases ih h with ⟨hm, hid⟩
      exact ⟨List.mem_cons_of_mem a hm, hid⟩

theorem mapGet_eq_none_iff {id : String} {l : List ActiveSession} :
    mapGet id l = none ↔ ∀ s ∈ l, s.sessionId ≠ id := by
  induction l with
  | nil => simp [mapGet]
  | cons a rest ih =>
    rw [mapGet]
    by_cases ha : a.sessionId = id
    · simp [ha]
    · simp [ha, ih]

theorem mapGet_of_mem_nodup {id : String} {l : List ActiveSession} {s : ActiveSession}
    (hnd : (keysOf l).Nodup) (hm : s ∈ l) (hid : s.sessionId = id) :
    mapGet id l = some s := by
  induction l with
  | nil => simp at hm
  | cons a rest ih =>
    rw [keysOf_cons, List.nodup_cons] at hnd
    rcases List.mem_cons.mp hm with rfl | hm2
    · rw [mapGet, if_pos hid]
    · have hane : a.sessionId ≠ id := by
        intro he
        apply hnd.1
        rw [he, ← hid]
        exact List.mem_map_of_mem _ hm2
      rw [mapGet, if_neg hane]
      exact ih hnd.2 hm2

theorem mapGet_append_of_none {id : String} {l1 l2 : List ActiveSession}
    (h : mapGet id l1 = none) : mapGet id (l1 ++ l2) = mapGet id l2 := by
  induction l1 with
  | nil => rfl
  | cons a rest ih =>
    rw [mapGet] at h
    by_cases ha : a.sessionId = id
    · rw [if_pos ha] at h; exact absurd h (by simp)
    · rw [if_neg ha] at h
      rw [List.cons_append, mapGet, if_neg ha]
      exact ih h

theorem mapGet_filter {id : String} {l : List ActiveSession} {s : ActiveSession}
    {p : ActiveSession → Bool} (hnd : (keysOf l).Nodup) (h : mapGet id l = some s) :
    mapGet id (l.filter p) = if p s then some s else none := by
  induction l with
  | nil => simp [mapGet] at h
  | cons a rest ih =>
    rw [keysOf_cons, List.nodup_cons] at hnd
    rw [mapGet] at h
    by_cases ha : a.sessionId = id
    · rw [if_pos ha] at h
      injection h with h2
      subst h2
      rw [List.filter_cons]
      by_cases hp : p a
      · rw [if_pos hp, mapGet, if_pos ha, if_pos hp]
      · rw [if_neg hp, if_neg hp]
        rw [mapGet_eq_none_iff]
        intro x hx hxid
        apply hnd.1
        rw [ha, ← hxid]
        exact List.mem_map_of_mem _ (List.mem_of_mem_filter hx)
    · rw [if_neg ha] at h
      rw [List.filter_cons]
      by_cases hp : p a
      · rw [if_pos hp, mapGet, if_neg ha]
        exact ih hnd.2 h
      · rw [if_neg hp]
        exact ih hnd.2 h

theorem mapSet_of_none {e : ActiveSession} {l : List ActiveSession}
    (h : mapGet e.sessionId l = none) : mapSet e l = l ++ [e] := by
  induction l with
  | nil => rfl
  | cons a rest ih =>
    rw [mapGet] at h
    by_cases ha : a.sessionId = e.sessionId
    · rw [if_pos ha] at h; exact absurd h (by simp)
    · rw [if_neg ha] at h
      rw [mapSet, if_neg ha, List.cons_append, ih h]

theorem mapSet_length_of_some {e : ActiveSession} {l : List ActiveSession} {s : ActiveSession}
    (h : mapGet e.sessionId l = some s) : (mapSet e l).length = l.length := by
  induction l with
  | nil => simp [mapGet] at h
  | cons a rest ih =>
    rw [mapGet] at h
    by_cases ha : a.sessionId = e.sessionId
    · rw [mapSet, if_pos ha]; rfl
    · rw [if_neg ha] at h
      rw [mapSet, if_neg ha, List.length_cons, List.length_cons, ih h]

theorem mapGet_mapSet_self (e : ActiveSession) (l : List ActiveSession) :
    mapGet e.sessionId (mapSet e l) = some e := by
  induction l with
  | nil => rw [mapSet, mapGet, if_pos rfl]
  | cons a rest ih =>
    by_cases ha : a.sessionId = e.sessionId
    · rw [mapSet, if_pos ha, mapGet, if_pos rfl]
    · rw [mapSet, if_neg ha, mapGet, if_neg ha]
      exact ih

theorem mapGet_mapSet_ne {id : String} {e : ActiveSession} (l : List ActiveSession)
    (h : id ≠ e.sessionId) : mapGet id (mapSet e l) = mapGet id l := by
  induction l with
  | nil => simp [mapSet, mapGet, Ne.symm h]
  | cons a rest ih =>
    by_cases ha : a.sessionId = e.sessionId
    · simp [mapSet, mapGet, ha, Ne.symm h]
    · simp [mapSet, mapGet, ha, ih]

theorem mapSet_length_le (e : ActiveSession) (l : List ActiveSession) :
    (mapSet e l).length ≤ l.length + 1 := by
  induction l with
  | nil => simp [mapSet]
  | cons a rest ih =>
    by_cases ha : a.sessionId = e.sessionId
    · rw [mapSet, if_pos ha]; simp
    · rw [mapSet, if_neg ha, List.length_cons, List.length_cons]
      omega

theorem setHeartbeat_length (now : Nat) (id : String) (l : List ActiveSession) :
    (setHeartbeat now id l).length = l.length := by
  induction l with
  | nil => rfl
  | cons a rest ih =>
    by_cases ha : a.sessionId = id
    · rw [setHeartbeat, if_pos ha]; rfl
    · rw [setHeartbeat, if_neg ha, List.length_cons, List.length_cons, ih]

theorem keysOf_setHeartbeat (now : Nat) (id : String) (l : List ActiveSession) :
    keysOf (setHeartbeat now id l) = keysOf l := by
  induction l with
  | nil => rfl
  | cons a rest ih =>
    by_cases ha : a.sessionId = id
    · rw [setHeartbeat, if_pos ha, keysOf_cons, keysOf_cons]
    · rw [setHeartbeat, if_neg ha, keysOf_cons, keysOf_cons, ih]

theorem mapGet_setHeartbeat_self {now : Nat} {id : String} {l : List ActiveSession}
    {s : ActiveSession} (h : mapGet id l = some s) :
    mapGet id (setHeartbeat now id l) = some { s with lastHeartbeat := now } := by
  induction l with
  | nil => simp [mapGet] at h
  | cons a rest ih =>
    rw [mapGet] at h
    by_cases ha : a.sessionId = id
    · rw [if_pos ha] at h
      injection h with h2
      subst h2
      simp [setHeartbeat, mapGet, ha]
    · rw [if_neg ha] at h
      simp [setHeartbeat, mapGet, ha, ih h]

theorem mapGet_setHeartbeat_ne {now : Nat} {id id2 : String} (l : List ActiveSession)
    (h : id2 ≠ id) : mapGet id2 (setHeartbeat now id l) = mapGet id2 l := by
  induction l with
  | nil => rfl
  | cons a rest ih =>
    by_cases ha : a.sessionId = id
    · simp [setHeartbeat, mapGet, ha, Ne.symm h]
    · simp [setHeartbeat, mapGet, ha, ih]

theorem mapDelete_length_of_some {id : String} {l : List ActiveSession} {s : ActiveSession}
    (h : mapGet id l = some s) : (mapDelete id l).length + 1 = l.length := by
  induction l with
  | nil => simp [mapGet] at h
  | cons a rest ih =>
    rw [mapGet] at h
    by_cases ha : a.sessionId = id
    · rw [mapDelete, if_pos ha]; rfl
    · rw [if_neg ha] at h
      rw [mapDelete, if_neg ha, List.length_cons, List.length_cons, ih h]

theorem mapDelete_length_le (id : String) (l : List ActiveSession) :
    (mapDelete id l).length ≤ l.length := by
  induction l with
  | nil => simp [mapDelete]
  | cons a rest ih =>
    by_cases ha : a.sessionId = id
    · rw [mapDelete, if_pos ha]; simp
    · rw [mapDelete, if_neg ha, List.length_cons, List.length_cons]
      omega

theorem mapGet_mapDelete_self {id : String} {l : List ActiveSession}
    (hnd : (keysOf l).Nodup) : mapGet id (mapDelete id l) = none := by
  induction l with
  | nil => rfl
  | cons a rest ih =>
    rw [keysOf_cons, List.nodup_cons] at hnd
    by_cases ha : a.sessionId = id
    · rw [mapDelete, if_pos ha, mapGet_eq_none_iff]
      intro x hx hxid
      apply hnd.1
      rw [ha, ← hxid]
      exact List.mem_map_of_mem _ hx
    · rw [mapDelete, if_neg ha, mapGet, if_neg ha]
      exact ih hnd.2

theorem mapGet_mapDelete_ne {id id2 : String} (l : List ActiveSession)
    (h : id2 ≠ id) : mapGet id2 (mapDelete id l) = mapGet id2 l := by
  induction l with
  | nil => rfl
  | cons a rest ih =>
    by_cases ha : a.sessionId = id
    · simp [mapDelete, mapGet, ha, Ne.symm h]
    · simp [mapDelete, mapGet, ha, ih]

theorem cleanupStale_noop {now : Nat} {st : SessionManager}
    (h : ∀ e ∈ st.sessions, now - e.lastHeartbeat ≤ st.staleTimeoutMs) :
    cleanupStale now st = st := by
  have hf : st.sessions.filter
      (fun s => ! decide (now - s.lastHeartbeat > st.staleTimeoutMs)) = st.sessions := by
    apply List.filter_eq_self.mpr
    intro a ha
    have h2 := h a ha
    simp only [Bool.not_eq_true', decide_eq_false_iff_not, not_lt]
    omega
  rw [cleanupStale, hf]

theorem applyOp_maxConcurrent (st : SessionManager) (op : Op) :
    (applyOp st op).maxConcurrent = st.maxConcurrent := by
  cases op with
  | start now id q =>
    rw [applyOp, startSession]
    split
    · rfl
    · rfl
  | beat now id =>
    rw [applyOp, heartbeat]
    cases mapGet id st.sessions
    · rfl
    · rfl
  | stop id =>
    rw [applyOp, endSession]
    cases mapGet id st.sessions
    · rfl
    · rfl
  | sweep now => rfl

theorem applyOp_staleTimeoutMs (st : SessionManager) (op : Op) :
    (applyOp st op).staleTimeoutMs = st.staleTimeoutMs := by
  cases op with
  | start now id q =>
    rw [applyOp, startSession]
    split
    · rfl
    · rfl
  | beat now id =>
    rw [applyOp, heartbeat]
    cases mapGet id st.sessions
    · rfl
    · rfl
  | stop id =>
    rw [applyOp, endSession]
    cases mapGet id st.sessions
    · rfl
    · rfl
  | sweep now => rfl

theorem applyOp_length_le {st : SessionManager} (op : Op)
    (h : st.sessions.length ≤ st.maxConcurrent) :
    (applyOp st op).sessions.length ≤ st.maxConcurrent := by
  cases op with
  | start now id q =>
    rw [applyOp, startSession]
    split
    · exact le_trans (List.length_filter_le _ _) h
    · rename_i hlt
      rw [not_le] at hlt
      calc (mapSet _ (cleanupStale now st).sessions).length
          ≤ (cleanupStale now st).sessions.length + 1 := mapSet_length_le _ _
        _ ≤ st.maxConcurrent := hlt
  | beat now id =>
    rw [applyOp, heartbeat]
    cases hm : mapGet id st.sessions
    · exact h
    · dsimp only
      rw [setHeartbeat_length]
      exact h
  | stop id =>
    rw [applyOp, endSession]
    cases hm : mapGet id st.sessions
    · exact h
    · dsimp only
      exact le_trans (mapDelete_length_le _ _) h
  | sweep now => exact le_trans (List.length_filter_le _ _) h

theorem run_maxConcurrent (ops : List Op) : ∀ st : SessionManager,
    (run st ops).maxConcurrent = st.maxConcurrent := by
  induction ops with
  | nil => intro st; rfl
  | cons op rest ih =>
    intro st
    rw [run, List.foldl_cons]
    rw [show List.foldl applyOp (applyOp st op) rest = run (applyOp st op) rest from rfl]
    rw [ih, applyOp_maxConcurrent]

theorem run_length_le (ops : List Op) : ∀ st : SessionManager,
    st.sessions.length ≤ st.maxConcurrent →
    (run st ops).sessions.length ≤ (run st ops).maxConcurrent := by
  induction ops with
  | nil => intro st h; exact h
  | cons op rest ih =>
    intro st h
    rw [run, List.foldl_cons]
    rw [show List.foldl applyOp (applyOp st op) rest = run (applyOp st op) rest from rfl]
    apply ih
    rw [applyOp_maxConcurrent]
    exact applyOp_length_le op h

theorem heartbeat_of_some {now : Nat} {id : String} {st : SessionManager} {s : ActiveSession}
    (h : getSession id st = some s) :
    heartbeat now id st = ({ st with sessions := setHeartbeat now id st.sessions }, true) := by
  rw [getSession] at h
  rw [heartbeat, h]

theorem heartbeat_of_none {now : Nat} {id : String} {st : SessionManager}
    (h : getSession id st = none) : heartbeat now id st = (st, false) := by
  rw [getSession] at h
  rw [heartbeat, h]

theorem endSession_of_some {id : String} {st : SessionManager} {s : ActiveSession}
    (h : getSession id st = some s) :
    endSession id st = ({ st with sessions := mapDelete id st.sessions }, some s) := by
  rw [getSession] at h
  rw [endSession, h]

theorem endSession_of_none {id : String} {st : SessionManager}
    (h : getSession id st = none) : endSession id st = (st, none) := by
  rw [getSession] at h
  rw [endSession, h]

theorem startSession_fresh_full (now : Nat) (id : String) (q : Nat) {st : SessionManager}
    (hfresh : ∀ e ∈ st.sessions, now - e.lastHeartbeat ≤ st.staleTimeoutMs)
    (hfull : st.maxConcurrent ≤ st.sessions.length) :
    startSession now id q st = (st, false) := by
  simp only [startSession]
  rw [cleanupStale_noop hfresh, if_pos hfull]

theorem startSession_fresh_room (now : Nat) (id : String) (q : Nat) {st : SessionManager}
    (hfresh : ∀ e ∈ st.sessions, now - e.lastHeartbeat ≤ st.staleTimeoutMs)
    (hroom : st.sessions.length < st.maxConcurrent) :
    startSession now id q st =
      ({ st with sessions := mapSet (freshSession now id q) st.sessions }, true) := by
  simp only [startSession]
  rw [cleanupStale_noop hfresh, if_neg (not_le.mpr hroom)]
  rfl

theorem startMany_spec (now q : Nat) : ∀ (ids : List String) (st : SessionManager),
    (∀ e ∈ st.sessions, now - e.lastHeartbeat ≤ st.staleTimeoutMs) →
    ids.Nodup →
    (∀ i ∈ ids, mapGet i st.sessions = none) →
    (startMany now ids q st).2 =
        List.replicate (min ids.length (st.maxConcurrent - st.sessions.length)) true
          ++ List.replicate (ids.length - (st.maxConcurrent - st.sessions.length)) false
    ∧ (startMany now ids q st).1.sessions =
        st.sessions ++ (ids.take (st.maxConcurrent - st.sessions.length)).map
          (fun i => freshSession now i q) := by
  intro ids
  induction ids with
  | nil =>
    intro st _ _ _
    constructor <;> simp [startMany]
  | cons id rest ih =>
    intro st hfresh hnd hnone
    by_cases hfull : st.maxConcurrent ≤ st.sessions.length
    · have hs := startSession_fresh_full now id q hfresh hfull
      have h0 : st.maxConcurrent - st.sessions.length = 0 := Nat.sub_eq_zero_of_le hfull
      have hrest := ih st hfresh (List.Nodup.of_cons hnd)
        (fun i hi => hnone i (List.mem_cons_of_mem id hi))
      refine ⟨?_, ?_⟩
      · simp only [startMany, hs]
        rw [hrest.1, h0]
        simp [List.replicate_succ]
      · simp only [startMany, hs]
        rw [hrest.2, h0]
        simp
    · have hroom : st.sessions.length < st.maxConcurrent := not_le.mp hfull
      have hs := startSession_fresh_room now id q hfresh hroom
      have h' : mapGet (freshSession now id q).sessionId st.sessions = none :=
        hnone id (List.mem_cons_self id rest)
      rw [mapSet_of_none h'] at hs
      have hfresh2 : ∀ e ∈ st.sessions ++ [freshSession now id q],
          now - e.lastHeartbeat ≤ st.staleTimeoutMs := by
        intro e he
        rcases List.mem_append.mp he with he1 | he2
        · exact hfresh e he1
        · rcases List.mem_singleton.mp he2 with rfl
          simp only [freshSession]
          omega
      have hnone2 : ∀ i ∈ rest, mapGet i (st.sessions ++ [freshSession now id q]) = none := by
        intro i hi
        rw [mapGet_append_of_none (hnone i (List.mem_cons_of_mem id hi))]
        have hne : (freshSession now id q).sessionId ≠ i := by
          simp only [freshSession]
          intro he
          rw [List.nodup_cons] at hnd
          exact hnd.1 (he ▸ hi)
        rw [mapGet, if_neg hne]
        rfl
      have hrest := ih { st with sessions := st.sessions ++ [freshSession now id q] }
        hfresh2 (List.Nodup.of_cons hnd) hnone2
      simp only [List.length_append, List.length_singleton] at hrest
      have hk : st.maxConcurrent - st.sessions.length
          = (st.maxConcurrent - (st.sessions.length + 1)) + 1 := by omega
      refine ⟨?_, ?_⟩
      · simp only [startMany, hs]
        rw [hrest.1, List.length_cons, hk]
        have h1 : min (rest.length + 1) ((st.maxConcurrent - (st.sessions.length + 1)) + 1)
            = min rest.length (st.maxConcurrent - (st.sessions.length + 1)) + 1 := by omega
        have h2 : (rest.length + 1) - ((st.maxConcurrent - (st.sessions.length + 1)) + 1)
            = rest.length - (st.maxConcurrent - (st.sessions.length + 1)) := by omega
        rw [h1, h2, List.replicate_succ, List.cons_append]
      · simp only [startMany, hs]
        rw [hrest.2, hk, List.take_succ_cons]
        simp

theorem getCapacity_spec (now : Nat) (st : SessionManager)
    (hinv : st.sessions.length ≤ st.maxConcurrent) :
    (getCapacity now st).2.activeCount ≤ (getCapacity now st).2.limit
    ∧ (getCapacity now st).1.sessions.length ≤ st.maxConcurrent
    ∧ (getCapacity now st).2.allowed
        = decide ((getCapacity now st).2.activeCount < (getCapacity now st).2.limit)
    ∧ ((getCapacity now st).2.allowed = false →
        (getCapacity now st).2.message
          = some (capacityMessage (getCapacity now st).2.limit)) := by
  have hle : (cleanupStale now st).sessions.length ≤ st.maxConcurrent :=
    le_trans (List.length_filter_le _ _) hinv
  have hmax : (cleanupStale now st).maxConcurrent = st.maxConcurrent := rfl
  refine ⟨?_, ?_, ?_, ?_⟩
  · simp only [getCapacity]
    exact hle
  · simp only [getCapacity]
    exact hle
  · rfl
  · intro h
    simp only [getCapacity] at h ⊢
    rw [if_neg]
    intro hb
    rw [h] at hb
    exact Bool.false_ne_true hb

/-- C1: Capacity invariant — after any single-threaded sequence of
`startSession`, `heartbeat`, `endSession` and sweep operations run from the
freshly constructed manager, immediately after any `getCapacity` call the
returned `activeCount` is at most the returned `limit`, the registry holds
at most `maxConcurrent` entries, the returned `allowed` flag equals
`activeCount < limit`, and when `allowed` is false the `message` field is
the string stating the limit. -/
theorem capacity_invariant (maxC T now : Nat) (ops : List Op) :
    (getCapacity now (run (initial maxC T) ops)).2.activeCount
        ≤ (getCapacity now (run (initial maxC T) ops)).2.limit
    ∧ (getCapacity now (run (initial maxC T) ops)).1.sessions.length ≤ maxC
    ∧ (getCapacity now (run (initial maxC T) ops)).2.allowed
        = decide ((getCapacity now (run (initial maxC T) ops)).2.activeCount
            < (getCapacity now (run (initial maxC T) ops)).2.limit)
    ∧ ((getCapacity now (run (initial maxC T) ops)).2.allowed = false →
        (getCapacity now (run (initial maxC T) ops)).2.message
          = some (capacityMessage (getCapacity now (run (initial maxC T) ops)).2.limit)) := by
  have hinv : (run (initial maxC T) ops).sessions.length
      ≤ (run (initial maxC T) ops).maxConcurrent :=
    run_length_le ops (initial maxC T) (by simp [initial])
  have h := getCapacity_spec now (run (initial maxC T) ops) hinv
  have hmax : (run (initial maxC T) ops).maxConcurrent = maxC :=
    run_maxConcurrent ops (initial maxC T)
  exact ⟨h.1, le_trans h.2.1 hmax.le, h.2.2.1, h.2.2.2⟩

/-- Witness for C1 at a concrete input: with `maxConcurrent = 1` and one
admitted session, `getCapacity` is not allowed and carries the message. -/
theorem capacity_invariant_witness :
    (getCapacity 0 (run (initial 1 300000) [Op.start 0 "a" 3])).2.message
      = some (capacityMessage 1) :=
  (capacity_invariant 1 300000 0 [Op.start 0 "a" 3]).2.2.2 (by decide)

/-- C2: Admission determinism — with `maxConcurrent = N`, starting from the
empty registry, `N + 1` `startSession` calls with pairwise-distinct
non-empty ids (all at one instant, so nothing goes stale in between) return
`true` for the first `N` calls and `false` for the last, and the registry
then holds exactly the first `N` ids, in order. -/
theorem admission_determinism (N T q now : Nat) (ids : List String)
    (hlen : ids.length = N + 1) (hnd : ids.Nodup) (hne : ∀ i ∈ ids, i ≠ "") :
    (startMany now ids q (initial N T)).2 = List.replicate N true ++ [false]
    ∧ keysOf (startMany now ids q (initial N T)).1.sessions = ids.take N := by
  have h := startMany_spec now q ids (initial N T)
    (by intro e he; simp [initial] at he) hnd (by intro i hi; rfl)
  have hN : (initial N T).maxConcurrent - (initial N T).sessions.length = N := rfl
  rw [hN, hlen] at h
  have h1 : min (N + 1) N = N := by omega
  have h2 : N + 1 - N = 1 := by omega
  rw [h1, h2, List.replicate_one] at h
  refine ⟨h.1, ?_⟩
  rw [h.2]
  rw [show (initial N T).sessions = [] from rfl, List.nil_append, keysOf, List.map_map]
  have hcomp : ((fun s : ActiveSession => s.sessionId) ∘ fun i => freshSession now i q)
      = fun i : String => i := funext fun i => rfl
  rw [hcomp]
  exact List.map_id' _

/-- Witness for C2 at a concrete input: limit 2, three distinct ids. -/
theorem admission_determinism_witness :
    (startMany 7 ["a", "b", "c"] 4 (initial 2 300000)).2
        = List.replicate 2 true ++ [false]
    ∧ keysOf (startMany 7 ["a", "b", "c"] 4 (initial 2 300000)).1.sessions
        = (["a", "b", "c"] : List String).take 2 :=
  admission_determinism 2 300000 4 7 ["a", "b", "c"] (by decide) (by decide) (by decide)

/-- C3 counterexample: with `maxConcurrent = 1` and `"a"` already admitted
(at time 0), a second `startSession` for `"a"` at time 50 returns `false`
and leaves the entry's `startedAt`/`lastHeartbeat` at 0 instead of
overwriting them to 50 — the capacity check precedes the insert and does
not exempt already-present ids, so the claim fails at this registry state
in which the id is present. -/
theorem readmission_overwrite_counterexample :
    (startSession 50 "a" 3 (startSession 0 "a" 3 (initial 1 300000)).1).2 = false
    ∧ getSession "a" (startSession 50 "a" 3 (startSession 0 "a" 3 (initial 1 300000)).1).1
        = some { sessionId := "a", startedAt := 0, lastHeartbeat := 0, totalQuestions := 3 } := by
  decide

/-- C3 (amended): re-admission overwrite below capacity — if the id is
present, no entry is stale, and the registry is strictly below
`maxConcurrent`, a second `startSession` with that id returns `true`, does
not change the registry size, and overwrites the entry's `startedAt` and
`lastHeartbeat` to the second call's time. -/
theorem readmission_overwrite (now : Nat) (id : String) (q : Nat) (st : SessionManager)
    (s : ActiveSession) (hs : getSession id st = some s)
    (hroom : st.sessions.length < st.maxConcurrent)
    (hfresh : ∀ e ∈ st.sessions, now - e.lastHeartbeat ≤ st.staleTimeoutMs) :
    (startSession now id q st).2 = true
    ∧ (startSession now id q st).1.sessions.length = st.sessions.length
    ∧ getSession id (startSession now id q st).1 = some (freshSession now id q) := by
  have hstart := startSession_fresh_room now id q hfresh hroom
  rw [hstart]
  have h' : mapGet (freshSession now id q).sessionId st.sessions = some s := hs
  refine ⟨rfl, ?_, ?_⟩
  · exact mapSet_length_of_some h'
  · exact mapGet_mapSet_self (freshSession now id q) st.sessions

/-- Witness for C3's amended theorem at a concrete input. -/
theorem readmission_overwrite_witness :
    (startSession 50 "a" 7 (startSession 0 "a" 3 (initial 2 300000)).1).2 = true
    ∧ (startSession 50 "a" 7 (startSession 0 "a" 3 (initial 2 300000)).1).1.sessions.length
        = (startSession 0 "a" 3 (initial 2 300000)).1.sessions.length
    ∧ getSession "a" (startSession 50 "a" 7 (startSession 0 "a" 3 (initial 2 300000)).1).1
        = some (freshSession 50 "a" 7) :=
  readmission_overwrite 50 "a" 7 (startSession 0 "a" 3 (initial 2 300000)).1
    { sessionId := "a", startedAt := 0, lastHeartbeat := 0, totalQuestions := 3 }
    (by decide) (by decide) (by decide)

/-- C7: at capacity (`size = maxConcurrent`) with the id already present
and nothing stale, `startSession` returns `false` and leaves the whole
state — in particular the existing entry's `startedAt` and `lastHeartbeat`
— unchanged: the overwrite-on-duplicate path is reachable only below the
size check. -/
theorem at_capacity_no_overwrite (now : Nat) (id : String) (q : Nat) (st : SessionManager)
    (s : ActiveSession) (hs : getSession id st = some s)
    (hfull : st.sessions.length = st.maxConcurrent)
    (hfresh : ∀ e ∈ st.sessions, now - e.lastHeartbeat ≤ st.staleTimeoutMs) :
    startSession now id q st = (st, false)
    ∧ getSession id (startSession now id q st).1 = some s := by
  have h := startSession_fresh_full now id q hfresh (le_of_eq hfull.symm)
  exact ⟨h, by rw [h]; exact hs⟩

/-- Witness for C7 at a concrete input. -/
theorem at_capacity_no_overwrite_witness :
    startSession 50 "a" 9 demoFullState = (demoFullState, false) :=
  (at_capacity_no_overwrite 50 "a" 9 demoFullState ⟨"a", 0, 0, 3⟩
    (by decide) (by decide) (by decide)).1

/-- C5: heartbeat semantics — on a present id it returns `true`, sets that
entry's `lastHeartbeat` to the current time, and preserves the registry
size and every other id's entry; on an absent id it returns `false` and
leaves the state exactly unchanged. -/
theorem heartbeat_semantics (now : Nat) (id : String) (st : SessionManager) :
    (∀ s, getSession id st = some s →
        (heartbeat now id st).2 = true
        ∧ getSession id (heartbeat now id st).1 = some { s with lastHeartbeat := now }
        ∧ (heartbeat now id st).1.sessions.length = st.sessions.length
        ∧ (∀ j, j ≠ id → getSession j (heartbeat now id st).1 = getSession j st))
    ∧ (getSession id st = none → heartbeat now id st = (st, false)) := by
  refine ⟨?_, heartbeat_of_none⟩
  intro s hs
  rw [heartbeat_of_some hs]
  refine ⟨rfl, ?_, ?_, ?_⟩
  · exact mapGet_setHeartbeat_self hs
  · exact setHeartbeat_length now id st.sessions
  · intro j hj
    exact mapGet_setHeartbeat_ne st.sessions hj

/-- Witness for C5 at a concrete input (hit on `"a"`, miss on `"zz"`). -/
theorem heartbeat_semantics_witness :
    (heartbeat 40 "a" demoState).2 = true
    ∧ getSession "a" (heartbeat 40 "a" demoState).1 = some ⟨"a", 0, 40, 3⟩
    ∧ heartbeat 40 "zz" demoState = (demoState, false) := by
  have h := heartbeat_semantics 40 "a" demoState
  have h2 := heartbeat_semantics 40 "zz" demoState
  have ha := h.1 ⟨"a", 0, 0, 3⟩ (by decide)
  exact ⟨ha.1, ha.2.1, h2.2 (by decide)⟩

/-- C6: end idempotence — for a present id, the first `endSession` returns
the entry, removes it (size drops by exactly one, lookup misses, other ids
untouched), and a second `endSession` with the same id returns `none` and
changes nothing; on an id that is absent, `endSession` returns `none`
without mutating the state. -/
theorem end_idempotence (id : String) (st : SessionManager) (hwf : WF st) :
    (∀ s, getSession id st = some s →
        (endSession id st).2 = some s
        ∧ s ∉ (endSession id st).1.sessions
        ∧ (endSession id st).1.sessions.length + 1 = st.sessions.length
        ∧ getSession id (endSession id st).1 = none
        ∧ endSession id (endSession id st).1 = ((endSession id st).1, none)
        ∧ (∀ j, j ≠ id → getSession j (endSession id st).1 = getSession j st))
    ∧ (getSession id st = none → endSession id st = (st, none)) := by
  refine ⟨?_, endSession_of_none⟩
  intro s hs
  rw [endSession_of_some hs]
  have hnone : mapGet id (mapDelete id st.sessions) = none := mapGet_mapDelete_self hwf
  have hsid : s.sessionId = id := (mem_of_mapGet_eq_some hs).2
  refine ⟨rfl, ?_, ?_, hnone, ?_, ?_⟩
  · intro hmem
    exact mapGet_eq_none_iff.mp hnone s hmem hsid
  · exact mapDelete_length_of_some hs
  · exact endSession_of_none hnone
  · intro j hj
    exact mapGet_mapDelete_ne st.sessions hj

/-- Witness for C6 at a concrete input (remove `"a"` twice). -/
theorem end_idempotence_witness :
    (endSession "a" demoState).2 = some ⟨"a", 0, 0, 3⟩
    ∧ getSession "a" (endSession "a" demoState).1 = none
    ∧ endSession "a" (endSession "a" demoState).1 = ((endSession "a" demoState).1, none) := by
  have h := end_idempotence "a" demoState
    (by show (keysOf demoState.sessions).Nodup; decide)
  have ha := h.1 ⟨"a", 0, 0, 3⟩ (by decide)
  exact ⟨ha.1, ha.2.2.2.1, ha.2.2.2.2.1⟩

theorem getSession_cleanup {now : Nat} {st : SessionManager} {id : String}
    {s : ActiveSession} (hwf : WF st) (hget : getSession id st = some s) :
    getSession id (cleanupStale now st)
      = if now - s.lastHeartbeat ≤ st.staleTimeoutMs then some s else none := by
  show mapGet id (st.sessions.filter _) = _
  rw [mapGet_filter hwf hget]
  by_cases hc : now - s.lastHeartbeat ≤ st.staleTimeoutMs
  · rw [if_pos hc, if_pos]
    simp only [Bool.not_eq_true', decide_eq_false_iff_not, not_lt]
    omega
  · rw [if_neg hc, if_neg]
    simp only [Bool.not_eq_true', decide_eq_false_iff_not, not_lt]
    omega

theorem getSession_startSession_ne {t : Nat} {i : String} {q : Nat} {st : SessionManager}
    {id : String} (hne : id ≠ i) :
    getSession id (startSession t i q st).1 = getSession id (cleanupStale t st) := by
  simp only [startSession]
  split
  · rfl
  · show mapGet id (mapSet (freshSession t i q) (cleanupStale t st).sessions) = _
    exact mapGet_mapSet_ne _ hne

theorem getSession_heartbeat_ne {t : Nat} {i id : String} {st : SessionManager}
    (hne : id ≠ i) : getSession id (heartbeat t i st).1 = getSession id st := by
  rw [heartbeat]
  cases hm : mapGet i st.sessions
  · rfl
  · show mapGet id (setHeartbeat t i st.sessions) = _
    exact mapGet_setHeartbeat_ne _ hne

theorem getSession_endSession_ne {i id : String} {st : SessionManager}
    (hne : id ≠ i) : getSession id (endSession i st).1 = getSession id st := by
  rw [endSession]
  cases hm : mapGet i st.sessions
  · rfl
  · show mapGet id (mapDelete i st.sessions) = _
    exact mapGet_mapDelete_ne _ hne

/-- C4: staleness reclamation — every entry whose age `now - lastHeartbeat`
strictly exceeds `staleTimeoutMs` when the sweep runs is removed: it is
absent from `getActiveSessions`, `getSession` on its id returns `none`, and
a subsequent `heartbeat` on its id returns `false`; every entry whose age
is at most `staleTimeoutMs` is kept. -/
theorem staleness_reclamation (st : SessionManager) (now : Nat) (hwf : WF st) :
    (∀ s ∈ st.sessions, now - s.lastHeartbeat > st.staleTimeoutMs →
        s ∉ getActiveSessions (cleanupStale now st)
        ∧ getSession s.sessionId (cleanupStale now st) = none
        ∧ ∀ t, (heartbeat t s.sessionId (cleanupStale now st)).2 = false)
    ∧ ∀ s ∈ st.sessions, now - s.lastHeartbeat ≤ st.staleTimeoutMs →
        s ∈ getActiveSessions (cleanupStale now st) := by
  constructor
  · intro s hm hstale
    have hget : getSession s.sessionId st = some s := mapGet_of_mem_nodup hwf hm rfl
    have hnone : getSession s.sessionId (cleanupStale now st) = none := by
      rw [getSession_cleanup hwf hget, if_neg (by omega)]
    refine ⟨?_, hnone, ?_⟩
    · intro hmem
      exact (mapGet_eq_none_iff.mp hnone) s hmem rfl
    · intro t
      rw [heartbeat_of_none hnone]
  · intro s hm hkeep
    show s ∈ st.sessions.filter _
    rw [List.mem_filter]
    refine ⟨hm, ?_⟩
    simp only [Bool.not_eq_true', decide_eq_false_iff_not, not_lt]
    omega

/-- Witness for C4 at a concrete input: at time 200 with timeout 100,
entry `"a"` (heartbeat 0) is reclaimed, entry `"b"` (heartbeat 150) kept. -/
theorem staleness_reclamation_witness :
    getSession "a" (cleanupStale 200 (⟨[⟨"a", 0, 0, 3⟩, ⟨"b", 0, 150, 4⟩], 5, 100⟩ :
        SessionManager)) = none
    ∧ (heartbeat 300 "a" (cleanupStale 200 (⟨[⟨"a", 0, 0, 3⟩, ⟨"b", 0, 150, 4⟩], 5, 100⟩ :
        SessionManager))).2 = false
    ∧ (⟨"b", 0, 150, 4⟩ : ActiveSession) ∈ getActiveSessions
        (cleanupStale 200 (⟨[⟨"a", 0, 0, 3⟩, ⟨"b", 0, 150, 4⟩], 5, 100⟩ : SessionManager)) := by
  have h := staleness_reclamation (⟨[⟨"a", 0, 0, 3⟩, ⟨"b", 0, 150, 4⟩], 5, 100⟩ : SessionManager)
    200 (by show (keysOf ([⟨"a", 0, 0, 3⟩, ⟨"b", 0, 150, 4⟩] : List ActiveSession)).Nodup; decide)
  have ha := h.1 ⟨"a", 0, 0, 3⟩ (by decide) (by decide)
  have hb := h.2 ⟨"b", 0, 150, 4⟩ (by decide) (by decide)
  exact ⟨ha.2.1, ha.2.2 300, hb⟩

/-- C8: staleness is enforced only at sweep points — an entry that is
already stale but not yet swept still heartbeats successfully: `heartbeat`
returns `true`, resets its `lastHeartbeat` to the current time, and the
entry then survives any later sweep that runs within `staleTimeoutMs` of
the heartbeat. -/
theorem heartbeat_revives_stale (now now2 : Nat) (id : String) (st : SessionManager)
    (s : ActiveSession) (hwf : WF st) (hs : getSession id st = some s)
    (hstale : now - s.lastHeartbeat > st.staleTimeoutMs) :
    (heartbeat now id st).2 = true
    ∧ getSession id (heartbeat now id st).1 = some { s with lastHeartbeat := now }
    ∧ (now2 - now ≤ st.staleTimeoutMs →
        getSession id (cleanupStale now2 (heartbeat now id st).1)
          = some { s with lastHeartbeat := now }) := by
  rw [heartbeat_of_some hs]
  have hget2 : getSession id { st with sessions := setHeartbeat now id st.sessions }
      = some { s with lastHeartbeat := now } := mapGet_setHeartbeat_self hs
  refine ⟨rfl, hget2, ?_⟩
  intro hkeep
  have hwf2 : WF { st with sessions := setHeartbeat now id st.sessions } := by
    show (keysOf (setHeartbeat now id st.sessions)).Nodup
    rw [keysOf_setHeartbeat]
    exact hwf
  rw [getSession_cleanup hwf2 hget2, if_pos hkeep]

/-- Witness for C8 at a concrete input: timeout 100, entry stale at time
500, heartbeat succeeds and the entry survives a sweep at time 550. -/
theorem heartbeat_revives_stale_witness :
    (heartbeat 500 "a" (⟨[⟨"a", 0, 0, 3⟩], 1, 100⟩ : SessionManager)).2 = true
    ∧ getSession "a" (cleanupStale 550
        (heartbeat 500 "a" (⟨[⟨"a", 0, 0, 3⟩], 1, 100⟩ : SessionManager)).1)
      = some ⟨"a", 0, 500, 3⟩ := by
  have h := heartbeat_revives_stale 500 550 "a" (⟨[⟨"a", 0, 0, 3⟩], 1, 100⟩ : SessionManager)
    ⟨"a", 0, 0, 3⟩ (by show (keysOf ([⟨"a", 0, 0, 3⟩] : List ActiveSession)).Nodup; decide)
    (by decide) (by decide)
  exact ⟨h.1, h.2.2 (by decide)⟩

/-- C9: entry mutation discipline — for any single operation applied while
an entry exists, if the operation is not a `startSession` on that id (no
re-admission) and the entry survives, then its `sessionId`, `startedAt` and
`totalQuestions` are unchanged, its `lastHeartbeat` is non-decreasing
(assuming the operation's clock reading is not earlier than the stored
heartbeat), any operation other than a heartbeat on that id leaves the
entry exactly unchanged, and a heartbeat touches no other id's entry. -/
theorem entry_mutation_discipline (op : Op) (st : SessionManager) (id : String)
    (s s' : ActiveSession) (hwf : WF st)
    (hs : getSession id st = some s)
    (hnostart : startsId op id = false)
    (hclock : ∀ t, opNow op = some t → s.lastHeartbeat ≤ t)
    (hs' : getSession id (applyOp st op) = some s') :
    s'.sessionId = s.sessionId
    ∧ s'.startedAt = s.startedAt
    ∧ s'.totalQuestions = s.totalQuestions
    ∧ s.lastHeartbeat ≤ s'.lastHeartbeat
    ∧ (beatsId op id = false → s' = s)
    ∧ (∀ t i, op = Op.beat t i → ∀ j, j ≠ i →
        getSession j (applyOp st op) = getSession j st) := by
  cases op with
  | start t i q =>
    have hne : id ≠ i := by
      intro he
      subst he
      simp [startsId] at hnostart
    have h2 : getSession id (applyOp st (Op.start t i q))
        = getSession id (cleanupStale t st) := getSession_startSession_ne hne
    rw [h2, getSession_cleanup hwf hs] at hs'
    by_cases hc : t - s.lastHeartbeat ≤ st.staleTimeoutMs
    · rw [if_pos hc] at hs'
      injection hs' with he2
      subst he2
      refine ⟨rfl, rfl, rfl, le_refl _, fun _ => rfl, ?_⟩
      intro t2 i2 heq
      cases heq
    · rw [if_neg hc] at hs'
      cases hs'
  | beat t i =>
    by_cases hii : i = id
    · subst hii
      have hupd : getSession i (heartbeat t i st).1 = some { s with lastHeartbeat := t } := by
        rw [heartbeat_of_some hs]
        exact mapGet_setHeartbeat_self hs
      have he2 : some s' = some { s with lastHeartbeat := t } := hs'.symm.trans hupd
      injection he2 with he3
      subst he3
      refine ⟨rfl, rfl, rfl, hclock t rfl, ?_, ?_⟩
      · intro hb
        simp [beatsId] at hb
      · intro t2 i2 heq j hj
        injection heq with ht hi
        subst ht
        subst hi
        exact getSession_heartbeat_ne hj
    · have hne : id ≠ i := fun he => hii he.symm
      have h2 : getSession id (applyOp st (Op.beat t i)) = getSession id st :=
        getSession_heartbeat_ne hne
      rw [h2, hs] at hs'
      injection hs' with he2
      subst he2
      refine ⟨rfl, rfl, rfl, le_refl _, fun _ => rfl, ?_⟩
      intro t2 i2 heq j hj
      injection heq with ht hi
      subst ht
      subst hi
      exact getSession_heartbeat_ne hj
  | stop i =>
    by_cases hii : i = id
    · subst hii
      exfalso
      have hend := endSession_of_some hs
      have h2 : getSession i (applyOp st (Op.stop i)) = none := by
        rw [show applyOp st (Op.stop i) = (endSession i st).1 from rfl, hend]
        exact mapGet_mapDelete_self hwf
      rw [h2] at hs'
      cases hs'
    · have hne : id ≠ i := fun he => hii he.symm
      have h2 : getSession id (applyOp st (Op.stop i)) = getSession id st :=
        getSession_endSession_ne hne
      rw [h2, hs] at hs'
      injection hs' with he2
      subst he2
      refine ⟨rfl, rfl, rfl, le_refl _, fun _ => rfl, ?_⟩
      intro t2 i2 heq
      cases heq
  | sweep t =>
    have h2 : getSession id (applyOp st (Op.sweep t))
        = getSession id (cleanupStale t st) := rfl
    rw [h2, getSession_cleanup hwf hs] at hs'
    by_cases hc : t - s.lastHeartbeat ≤ st.staleTimeoutMs
    · rw [if_pos hc] at hs'
      injection hs' with he2
      subst he2
      refine ⟨rfl, rfl, rfl, le_refl _, fun _ => rfl, ?_⟩
      intro t2 i2 heq
      cases heq
    · rw [if_neg hc] at hs'
      cases hs'

/-- Witness for C9 at a concrete input: a heartbeat on `"a"` leaves `"b"`
untouched and preserves `"a"`'s `startedAt`. -/
theorem entry_mutation_discipline_witness :
    getSession "b" (applyOp demoState (Op.beat 10 "a")) = getSession "b" demoState
    ∧ (⟨"a", 0, 10, 3⟩ : ActiveSession).startedAt
        = (⟨"a", 0, 0, 3⟩ : ActiveSession).startedAt := by
  have h := entry_mutation_discipline (Op.beat 10 "a") demoState "a"
    ⟨"a", 0, 0, 3⟩ ⟨"a", 0, 10, 3⟩
    (by show (keysOf demoState.sessions).Nodup; decide) (by decide) (by decide)
    (fun t _ => Nat.zero_le t) (by decide)
  exact ⟨h.2.2.2.2.2 10 "a" rfl "b" (by decide), h.2.1⟩

/-- C10: `getSession` purity — `getSession` is embedded as a pure function
of the state, mirroring the source's single `Map.get` with no mutation and
no sweep: it returns exactly the entry under the key when present and
`none` otherwise, and because no sweep runs it still returns an entry whose
heartbeat age already exceeds `staleTimeoutMs`. -/
theorem getSession_pure_lookup (id : String) (st : SessionManager) :
    (∀ s, getSession id st = some s → s ∈ st.sessions ∧ s.sessionId = id)
    ∧ (getSession id st = none ↔ ∀ s ∈ st.sessions, s.sessionId ≠ id)
    ∧ (∀ s now, WF st → s ∈ st.sessions → s.sessionId = id →
        now - s.lastHeartbeat > st.staleTimeoutMs → getSession id st = some s) := by
  refine ⟨?_, mapGet_eq_none_iff, ?_⟩
  · intro s hs
    exact mem_of_mapGet_eq_some hs
  · intro s now hwf hm hid hstale
    exact mapGet_of_mem_nodup hwf hm hid

/-- Witness for C10 at a concrete input: a stale entry (timeout 100, age
500) is still returned; an absent id yields `none`. -/
theorem getSession_pure_lookup_witness :
    getSession "a" (⟨[⟨"a", 0, 0, 3⟩], 1, 100⟩ : SessionManager) = some ⟨"a", 0, 0, 3⟩
    ∧ getSession "zz" (⟨[⟨"a", 0, 0, 3⟩], 1, 100⟩ : SessionManager) = none := by
  have h := getSession_pure_lookup "a" (⟨[⟨"a", 0, 0, 3⟩], 1, 100⟩ : SessionManager)
  have h2 := getSession_pure_lookup "zz" (⟨[⟨"a", 0, 0, 3⟩], 1, 100⟩ : SessionManager)
  refine ⟨?_, ?_⟩
  · exact h.2.2 ⟨"a", 0, 0, 3⟩ 500
      (by show (keysOf ([⟨"a", 0, 0, 3⟩] : List ActiveSession)).Nodup; decide)
      (by decide) rfl (by decide)
  · exact h2.2.1.mpr (by decide)

end HumeSession
